import Mathlib

/-!
Verification of the guardrails adapter (`guardrails_adapter/app.py`).

Python strings are modelled as `List Char`; the Python string operations the
adapter uses (`strip`, `splitlines`, `rsplit`, substring search, the two
regular expressions, truthiness of optional values) are given executable
shallow embeddings below, each annotated with the source construct it models.
Unicode-only corner cases (non-ASCII whitespace / case mapping) are modelled
at ASCII fidelity, which is the alphabet all the adapter's markers live in.
-/

namespace GuardrailsAdapter

/-- Whitespace as recognised by Python's `str.strip()` / `\s` (ASCII range). -/
def isSpace (c : Char) : Bool :=
  c == ' ' || c == '\t' || c == '\n' || c == '\r' || c == '\x0b' || c == '\x0c'

/-- Line boundaries recognised by Python's `str.splitlines()`. -/
def isLineBreak (c : Char) : Bool :=
  c == '\n' || c == '\r' || c == '\x0b' || c == '\x0c' ||
  c == '\x1c' || c == '\x1d' || c == '\x1e' || c == '\x85' ||
  c == '\u2028' || c == '\u2029'

/-- Python `str.strip()`: drop leading and trailing whitespace. -/
def strip (s : List Char) : List Char :=
  ((s.dropWhile isSpace).reverse.dropWhile isSpace).reverse

/-- Consume one line terminator at the head of a list (`\r\n` counts as one). -/
def breakTail : List Char → List Char
  | [] => []
  | a :: r => if a == '\r' && r.head? == some '\n' then r.tail else r

/-- Fuelled worker for `splitlines` (structural recursion on the fuel, so that
concrete instances reduce inside the kernel). -/
def splitlinesF : Nat → List Char → List (List Char)
  | 0, _ => []
  | _, [] => []
  | fuel + 1, s =>
    let line := s.takeWhile (fun c => !isLineBreak c)
    let rest := s.dropWhile (fun c => !isLineBreak c)
    if rest.isEmpty then [line] else line :: splitlinesF fuel (breakTail rest)

/-- Python `str.splitlines()`: lines without their terminators; a trailing
terminator produces no extra empty line. -/
def splitlines (s : List Char) : List (List Char) :=
  splitlinesF (s.length + 1) s

/-- Python `pat in s`: `pat` occurs as a contiguous substring of `s`. -/
def containsSub (pat s : List Char) : Bool :=
  (List.range (s.length + 1)).any (fun i => pat.isPrefixOf (s.drop i))

/-- All indices at which `pat` occurs in `s`, in increasing order. -/
def occIdxs (pat s : List Char) : List Nat :=
  (List.range (s.length + 1)).filter (fun i => pat.isPrefixOf (s.drop i))

/-- Python `s.rsplit(pat, 1)[-1]`: the suffix after the last occurrence of
`pat`, or `s` itself when `pat` does not occur. -/
def afterLast (pat s : List Char) : List Char :=
  match (occIdxs pat s).getLast? with
  | none => s
  | some i => s.drop (i + pat.length)

/-- Python `s.lower()` (ASCII case mapping, the range the markers use). -/
def lowerStr (s : List Char) : List Char := s.map Char.toLower

/-- Python `pat in s.lower()` for an already-lowercase `pat`. -/
def containsCI (pat s : List Char) : Bool := containsSub pat (lowerStr s)

/-- Case-insensitive match of `pat` at position `i` of `s`. -/
def matchesCIAt (pat s : List Char) (i : Nat) : Bool :=
  pat.isPrefixOf (lowerStr (s.drop i))

/-- Index of the first case-insensitive occurrence of `pat` in `s`. -/
def firstOccCI (pat s : List Char) : Option Nat :=
  (List.range (s.length + 1)).find? (matchesCIAt pat s)

/-- Python `re.split(r"(?i)pat", s, maxsplit=1)[1]` for a literal `pat`:
the suffix after the first case-insensitive occurrence. -/
def afterFirstCI (pat s : List Char) : List Char :=
  match firstOccCI pat s with
  | none => s
  | some i => s.drop (i + pat.length)

/-- The six alternatives of the filtering regex
`^(USER|User|SYSTEM|System|ASSISTANT|Assistant)\s*:` in `clean_completion`. -/
def roleLabels : List (List Char) :=
  ["USER".data, "User".data, "SYSTEM".data, "System".data,
   "ASSISTANT".data, "Assistant".data]

/-- Python `re.match(r"^(USER|User|SYSTEM|System|ASSISTANT|Assistant)\s*:", l)`:
the line starts with one of the six literals, then optional whitespace, then a
colon.  Note the regex is case-SENSITIVE (no `re.I` flag in the source). -/
def isTranscriptLine (l : List Char) : Bool :=
  roleLabels.any (fun r =>
    r.isPrefixOf l && (((l.drop r.length).dropWhile isSpace).head? == some ':'))

/-- Model of `_first_non_empty_line` from `app.py`: the first line whose stripped form
is non-empty, stripped; `""` when there is none. -/
def firstNonEmptyLine (s : List Char) : List Char :=
  match ((splitlines s).map strip).find? (fun l => !l.isEmpty) with
  | some l => l
  | none => []

/-- The sentinel marker `"ASSISTANT:"`. -/
def sentinel : List Char := "ASSISTANT:".data

/-- The final marker `"assistantfinal"`. -/
def finalMarker : List Char := "assistantfinal".data

/-- Echo suppression step of `clean_completion`:
`if "ASSISTANT:" in t: t = t.rsplit("ASSISTANT:", 1)[-1].strip()`. -/
def echoSuppress (t : List Char) : List Char :=
  if containsSub sentinel t then strip (afterLast sentinel t) else t

/-- Final-marker step of `clean_completion`:
`if "assistantfinal" in t.lower(): t = re.split(r"(?i)assistantfinal", t, maxsplit=1)[1].strip()`. -/
def finalExtract (t : List Char) : List Char :=
  if containsCI finalMarker t then strip (afterFirstCI finalMarker t) else t

/-- Transcript filtering loop of `clean_completion`: strip each line, skip
lines matching the role regex, keep the non-empty remainder. -/
def filterTranscript (t : List Char) : List (List Char) :=
  ((splitlines t).map strip).filter (fun l => !isTranscriptLine l && !l.isEmpty)

/-- Join step `"\n".join(cleaned_lines).strip()` applied to the filtered lines. -/
def joinFiltered (t : List Char) : List Char :=
  strip (List.intercalate ['\n'] (filterTranscript t))

/-- Model of `clean_completion` from `app.py`, step for step. -/
def clean_completion (text : List Char) : List Char :=
  if text.isEmpty then []
  else
    let t := finalExtract (echoSuppress (strip text))
    let t4 := joinFiltered t
    let f := firstNonEmptyLine t4
    if f.isEmpty then t4 else f

/-- A chat message (`ChatMessage` pydantic model). -/
structure ChatMessage where
  role : List Char
  content : List Char
deriving DecidableEq

/-- Role normalisation in `messages_to_prompt`:
`role = m.role.strip().lower(); if role not in (...): role = "user"`. -/
def normRole (r : List Char) : List Char :=
  let role := lowerStr (strip r)
  if role ∈ ["system".data, "user".data, "assistant".data, "tool".data]
  then role else "user".data

/-- One prompt line `f"{role.upper()}: {m.content}"`. -/
def roleLine (m : ChatMessage) : List Char :=
  (normRole m.role).map Char.toUpper ++ ": ".data ++ m.content

/-- Model of `messages_to_prompt` from `app.py`: one line per message, then the
sentinel line, joined with `"\n"`. -/
def messages_to_prompt (msgs : List ChatMessage) : List Char :=
  List.intercalate ['\n'] (msgs.map roleLine ++ ["ASSISTANT:".data])

/-- The `ChatCompletionsRequest` pydantic model after validation: a field that
is absent in the JSON body gets its declared default (`0.0`, `256`, `False`,
`None`), while a field explicitly sent as `null` validates to `none`.
Floats carry no arithmetic here and are modelled as rationals. -/
structure ChatCompletionsRequest where
  model : Option (List Char) := none
  messages : List ChatMessage
  temperature : Option ℚ := some 0
  max_tokens : Option Int := some 256
  stream : Option Bool := some false
  stop : Option (List Char ⊕ List (List Char)) := none
deriving DecidableEq

/-- The `parameters` object of the backend payload; `stop = none` models the
key being absent from the dictionary. -/
structure GenerateParams where
  stream : Bool
  temperature : ℚ
  max_tokens : Int
  stop : Option (List Char)
deriving DecidableEq

/-- The JSON payload posted to `{TRITON_BASE}/v2/models/{TRITON_MODEL}/generate`. -/
structure GeneratePayload where
  text_input : List Char
  parameters : GenerateParams
deriving DecidableEq

/-- Resolution of `stop_val` in `chat_completions`:
a non-empty list contributes its first element (`str` of a `str` is itself),
a string contributes itself, anything else leaves `None`. -/
def stopVal (req : ChatCompletionsRequest) : Option (List Char) :=
  match req.stop with
  | some (Sum.inr l) => if 0 < l.length then some (l.headD []) else none
  | some (Sum.inl s) => some s
  | none => none

/-- Assembly of `params` in `chat_completions`: `stream` forced to `False`,
`temperature`/`max_tokens` defaulted when `None`, and `stop` included only
when `stop_val` is truthy (so neither `None` nor the empty string). -/
def buildParams (req : ChatCompletionsRequest) : GenerateParams :=
  { stream := false
    temperature := req.temperature.getD 0
    max_tokens := req.max_tokens.getD 256
    stop := match stopVal req with
            | some s => if s.isEmpty then none else some s
            | none => none }

/-- Decimal digit character, `48 + d` as a code point. -/
def digitChar (d : Nat) : Char := Char.ofNat (48 + d)

/-- Fuelled worker for `natRepr`. -/
def natReprF : Nat → Nat → List Char
  | 0, _ => []
  | fuel + 1, n =>
    if n < 10 then [digitChar n] else natReprF fuel (n / 10) ++ [digitChar (n % 10)]

/-- Python `str(n)` for a non-negative integer: decimal digits, no sign. -/
def natRepr (n : Nat) : List Char := natReprF (n + 1) n

/-- The response id `f"chatcmpl-adapter-{int(time.time()*1000)}"`, as a
function of the observed millisecond clock value. -/
def idString (ms : Nat) : List Char := "chatcmpl-adapter-".data ++ natRepr ms

/-- Result of `requests.post` as seen by the handler: HTTP status,
`r.text`, and the optional `text_output` field of `r.json()`. -/
structure BackendResponse where
  status : Int
  body : List Char
  text_output : Option (List Char)
deriving DecidableEq

/-- Wall-clock observations made by one invocation of the handler, passed
explicitly: `time.time()` before and after the backend call, then
`int(time.time()*1000)` for the id and `int(time.time())` for `created`. -/
structure TimeObs where
  t0 : ℚ
  t1 : ℚ
  idMs : Nat
  created : Int
deriving DecidableEq

/-- Process-wide configuration (`TRITON_BASE`, `TRITON_MODEL`), read once. -/
structure AdapterConfig where
  tritonBase : List Char
  tritonModel : List Char
deriving DecidableEq

/-- Values appearing in the `usage` dictionary: `None` or a float. -/
inductive UsageVal where
  | null : UsageVal
  | num : ℚ → UsageVal
deriving DecidableEq

/-- The `message` object of the single choice. -/
structure ChatMessageOut where
  role : List Char
  content : List Char
deriving DecidableEq

/-- The single element of `choices`. -/
structure Choice where
  index : Int
  message : ChatMessageOut
  finish_reason : List Char
deriving DecidableEq

/-- The success response dictionary of `chat_completions`.  The `usage`
dictionary is kept as an explicit key/value list because its key names are
part of the contract under scrutiny. -/
structure ChatCompletionResponse where
  id : List Char
  object : List Char
  created : Int
  model : List Char
  choices : List Choice
  usage : List (List Char × UsageVal)
deriving DecidableEq

/-- Ways `chat_completions` terminates without returning a response:
the two `HTTPException`s it raises itself, or an exception escaping from
`requests.post` (the source wraps that call in no `try`/`except`, so a
connection failure or timeout propagates out of the handler uncaught). -/
inductive HandlerError where
  | unsupportedStream : Nat → List Char → HandlerError
  | backendError : Nat → Int → List Char → HandlerError
  | transportException : List Char → HandlerError
deriving DecidableEq

/-- Model of the `chat_completions` handler.  The outbound call is an oracle
value `backendResult` (`.error` = `requests.post` raised, `.ok` = it returned)
and the clock is the explicit observation record `obs`.  The second component
of the result is the list of payloads actually posted to the backend. -/
def chat_completions (cfg : AdapterConfig) (req : ChatCompletionsRequest)
    (backendResult : Except (List Char) BackendResponse) (obs : TimeObs) :
    Except HandlerError ChatCompletionResponse × List GeneratePayload :=
  if req.stream = some true then
    (.error (.unsupportedStream 400
      "stream=true not supported in this minimal adapter yet".data), [])
  else
    let prompt := messages_to_prompt req.messages
    let payload : GeneratePayload := ⟨prompt, buildParams req⟩
    match backendResult with
    | .error e => (.error (.transportException e), [payload])
    | .ok r =>
      if r.status ≠ 200 then
        (.error (.backendError 502 r.status r.body), [payload])
      else
        let text := clean_completion (r.text_output.getD [])
        (.ok
          { id := idString obs.idMs
            object := "chat.completion".data
            created := obs.created
            model := match req.model with
                     | some m => if m.isEmpty then cfg.tritonModel else m
                     | none => cfg.tritonModel
            choices := [⟨0, ⟨"assistant".data, text⟩, "stop".data⟩]
            usage := [("prompt_tokens".data, .null),
                      ("completion_tokens".data, .null),
                      ("total_tokens".data, .null),
                      ("triton_latency_s".data, .num (obs.t1 - obs.t0))] },
         [payload])

/-- Extractor: the id of a success result. -/
def okId : Except HandlerError ChatCompletionResponse → Option (List Char)
  | .ok r => some r.id
  | .error _ => none

/-- Extractor: the assistant text of a success result. -/
def okContent : Except HandlerError ChatCompletionResponse → Option (List Char)
  | .ok r => some ((r.choices.map (fun c => c.message.content)).headD [])
  | .error _ => none

/-- Extractor: the usage dictionary of a success result. -/
def okUsage : Except HandlerError ChatCompletionResponse →
    Option (List (List Char × UsageVal))
  | .ok r => some r.usage
  | .error _ => none

/-- Lookup of a key in the usage dictionary. -/
def usageLookup (k : List Char) (u : List (List Char × UsageVal)) :
    Option UsageVal :=
  (u.find? (fun kv => kv.1 == k)).map (fun kv => kv.2)

/-- Discriminator: did the handler raise the 502 backend-error
`HTTPException` (as opposed to returning, or failing some other way)? -/
def raisedBackendError : Except HandlerError ChatCompletionResponse → Bool
  | .error (.backendError _ _ _) => true
  | _ => false

/-- Modelled from the spec wording of the filtering step (for comparison with
the code): a line whose TRIMMED form starts with a role label `USER:`,
`SYSTEM:` or `ASSISTANT:` matched case-insensitively, with optional
whitespace before the colon. -/
def ciRoleLine (l : List Char) : Bool :=
  ["user".data, "system".data, "assistant".data].any (fun r =>
    r.isPrefixOf (lowerStr (strip l)) &&
      ((((strip l).drop r.length).dropWhile isSpace).head? == some ':'))

/-- Stop normalisation as the code actually performs it, stated as one case
split (the spec-facing restatement proved equal to `buildParams`): a list
contributes its first element when that element is non-empty, a non-empty
string contributes itself, everything else omits the key. -/
def stopSpec : Option (List Char ⊕ List (List Char)) → Option (List Char)
  | some (Sum.inr (a :: _)) => if a.isEmpty then none else some a
  | some (Sum.inr []) => none
  | some (Sum.inl s) => if s.isEmpty then none else some s
  | none => none

/-- Prompt shape as the spec states it: one line per turn, then the sentinel
line, each adjacent pair separated by a single newline (so no trailing
newline). -/
def promptSpec : List ChatMessage → List Char
  | [] => "ASSISTANT:".data
  | m :: rest => roleLine m ++ '\n' :: promptSpec rest

/-! ## Generic list helpers -/

theorem isPre_iff {pat s : List Char} : pat.isPrefixOf s = true ↔ pat <+: s :=
  List.isPrefixOf_iff_prefix

theorem takeWhilePre (p : α → Bool) (l : List α) : l.takeWhile p <+: l :=
  List.takeWhile_prefix p

theorem dropWhile_head_false {p : Char → Bool} {s : List Char} {a : Char}
    (h : (s.dropWhile p).head? = some a) : p a = false := by
  have h2 := List.head?_dropWhile_not p s
  rw [h] at h2
  exact h2

theorem dropWhile_eq_self_of_head {p : Char → Bool} {s : List Char}
    (h : ∀ a, s.head? = some a → p a = false) : s.dropWhile p = s := by
  cases s with
  | nil => rfl
  | cons a t =>
      have := h a rfl
      simp [List.dropWhile_cons, this]

theorem dropWhile_eq_self_head_false {p : Char → Bool} {s : List Char}
    (h : s.dropWhile p = s) {a : Char} (ha : s.head? = some a) : p a = false := by
  cases s with
  | nil => simp at ha
  | cons b t =>
      have hb : b = a := by simpa using ha
      subst hb
      by_contra hcon
      have hp : p b = true := by
        cases hpb : p b with
        | false => exact absurd hpb hcon
        | true => rfl
      rw [List.dropWhile_cons_of_pos hp] at h
      have hlen := (List.dropWhile_sublist (l := t) p).length_le
      rw [h] at hlen
      simp at hlen

theorem containsSub_iff {pat s : List Char} :
    containsSub pat s = true ↔ pat <:+: s := by
  unfold containsSub
  rw [List.any_eq_true]
  constructor
  · rintro ⟨i, _, hp⟩
    obtain ⟨u, hu⟩ := isPre_iff.mp hp
    exact ⟨s.take i, u, by rw [List.append_assoc, hu, List.take_append_drop]⟩
  · rintro ⟨u, v, huv⟩
    refine ⟨u.length, ?_, ?_⟩
    · rw [List.mem_range, ← huv]
      simp [List.length_append]
      omega
    · rw [isPre_iff, ← huv, List.append_assoc, List.drop_left]
      exact ⟨v, rfl⟩

theorem infix_containsSub_false {pat t u : List Char}
    (ht : containsSub pat t = false) (hu : u <:+: t) :
    containsSub pat u = false := by
  cases h : containsSub pat u with
  | false => rfl
  | true =>
      have : containsSub pat t = true :=
        containsSub_iff.mpr ((containsSub_iff.mp h).trans hu)
      rw [this] at ht
      exact absurd ht (by simp)

theorem mem_le_getLast_of_sorted {l : List Nat} (hs : List.Pairwise (· < ·) l)
    {m : Nat} (hm : l.getLast? = some m) : ∀ a ∈ l, a ≤ m := by
  induction l with
  | nil => intro a ha; simp at ha
  | cons b t ih =>
      intro a ha
      cases t with
      | nil =>
          have hb : b = m := by simpa using hm
          have : a = b := by simpa using ha
          omega
      | cons c t' =>
          rw [List.getLast?_cons_cons] at hm
          rcases List.mem_cons.mp ha with rfl | hat
          · have hmem : m ∈ c :: t' := List.mem_of_getLast?_eq_some hm
            have hlt : a < m := (List.pairwise_cons.mp hs).1 m hmem
            omega
          · exact ih (List.pairwise_cons.mp hs).2 hm a hat

theorem occIdxs_sorted (pat s : List Char) :
    List.Pairwise (· < ·) (occIdxs pat s) :=
  (List.sorted_lt_range _).filter _

theorem mem_occIdxs_iff {pat s : List Char} {i : Nat} (hp : pat ≠ []) :
    i ∈ occIdxs pat s ↔ pat.isPrefixOf (s.drop i) = true := by
  unfold occIdxs
  rw [List.mem_filter]
  constructor
  · exact fun h => h.2
  · intro h
    refine ⟨?_, h⟩
    rw [List.mem_range]
    by_contra hcon
    have : s.length + 1 ≤ i := by omega
    have hd : s.drop i = [] := by
      apply List.drop_eq_nil_of_le
      omega
    rw [hd] at h
    have := isPre_iff.mp h
    rw [List.prefix_nil] at this
    exact hp this

theorem afterLast_no_sub {pat s : List Char} (hp : pat ≠ []) :
    containsSub pat (afterLast pat s) = false := by
  unfold afterLast
  cases hlast : (occIdxs pat s).getLast? with
  | none =>
      rw [List.getLast?_eq_none_iff] at hlast
      cases h : containsSub pat s with
      | false => rfl
      | true =>
          obtain ⟨i, hi, hpre⟩ := List.any_eq_true.mp h
          have : i ∈ occIdxs pat s := (mem_occIdxs_iff hp).mpr hpre
          rw [hlast] at this
          simp at this
  | some i =>
      cases h : containsSub pat (s.drop (i + pat.length)) with
      | false => rfl
      | true =>
          obtain ⟨j, _, hpre⟩ := List.any_eq_true.mp h
          rw [List.drop_drop] at hpre
          have hk : (i + pat.length + j) ∈ occIdxs pat s :=
            (mem_occIdxs_iff hp).mpr hpre
          have hle := mem_le_getLast_of_sorted (occIdxs_sorted pat s) hlast _ hk
          have hpl : 0 < pat.length := List.length_pos.mpr hp
          omega

/-! ## Lemmas about `breakTail` and `splitlines` -/

theorem breakTail_nil : breakTail [] = [] := rfl

theorem breakTail_cons (a : Char) (r : List Char) :
    breakTail (a :: r) = if a == '\r' && r.head? == some '\n' then r.tail else r :=
  rfl

theorem breakTail_cons_ne {a : Char} (r : List Char) (h : a ≠ '\r') :
    breakTail (a :: r) = r := by
  have hb : (a == '\r') = false := by
    cases hx : a == '\r' with
    | false => rfl
    | true => exact absurd (by simpa using hx) h
  simp [breakTail_cons, hb]

theorem breakTail_suffix (l : List Char) : breakTail l <:+ l := by
  cases l with
  | nil => exact List.suffix_rfl
  | cons a r =>
      rw [breakTail_cons]
      split
      · exact (List.tail_suffix r).trans (List.suffix_cons a r)
      · exact List.suffix_cons a r

theorem breakTail_length_lt {l : List Char} (h : l ≠ []) :
    (breakTail l).length < l.length := by
  cases l with
  | nil => exact absurd rfl h
  | cons a r =>
      rw [breakTail_cons]
      split
      · have := List.length_tail r
        simp only [List.length_cons]
        omega
      · simp

theorem splitlinesF_congr :
    ∀ (f₁ : Nat), ∀ (s : List Char), ∀ (f₂ : Nat), s.length < f₁ → s.length < f₂ →
      splitlinesF f₁ s = splitlinesF f₂ s := by
  intro f₁
  induction f₁ with
  | zero => intro s f₂ h1; omega
  | succ f₁' ih =>
      intro s f₂ h1 h2
      cases s with
      | nil =>
          cases f₂ with
          | zero => omega
          | succ f₂' => rfl
      | cons a r =>
          cases f₂ with
          | zero => omega
          | succ f₂' =>
              show (let line := (a :: r).takeWhile (fun c => !isLineBreak c)
                    let rest := (a :: r).dropWhile (fun c => !isLineBreak c)
                    if rest.isEmpty then [line]
                    else line :: splitlinesF f₁' (breakTail rest)) =
                   (let line := (a :: r).takeWhile (fun c => !isLineBreak c)
                    let rest := (a :: r).dropWhile (fun c => !isLineBreak c)
                    if rest.isEmpty then [line]
                    else line :: splitlinesF f₂' (breakTail rest))
              simp only
              split
              · rfl
              · rename_i hne
                have hrest : ((a :: r).dropWhile (fun c => !isLineBreak c)) ≠ [] := by
                  intro hcon
                  rw [hcon] at hne
                  simp at hne
                have hd : ((a :: r).dropWhile (fun c => !isLineBreak c)).length ≤
                    (a :: r).length :=
                  (List.dropWhile_sublist _).length_le
                have hb := breakTail_length_lt hrest
                have := ih (breakTail ((a :: r).dropWhile (fun c => !isLineBreak c))) f₂'
                  (by omega) (by omega)
                rw [this]

theorem splitlines_nil : splitlines [] = [] := rfl

theorem splitlines_eq_single {s : List Char} (h : s ≠ [])
    (h2 : s.dropWhile (fun c => !isLineBreak c) = []) :
    splitlines s = [s.takeWhile (fun c => !isLineBreak c)] := by
  unfold splitlines
  cases s with
  | nil => exact absurd rfl h
  | cons a r =>
      show (let line := (a :: r).takeWhile (fun c => !isLineBreak c)
            let rest := (a :: r).dropWhile (fun c => !isLineBreak c)
            if rest.isEmpty then [line]
            else line :: splitlinesF (a :: r).length (breakTail rest)) = _
      simp only [h2]
      rfl

theorem splitlines_eq_cons {s : List Char} (h : s ≠ [])
    (h2 : s.dropWhile (fun c => !isLineBreak c) ≠ []) :
    splitlines s = s.takeWhile (fun c => !isLineBreak c) ::
      splitlines (breakTail (s.dropWhile (fun c => !isLineBreak c))) := by
  unfold splitlines
  cases s with
  | nil => exact absurd rfl h
  | cons a r =>
      show (let line := (a :: r).takeWhile (fun c => !isLineBreak c)
            let rest := (a :: r).dropWhile (fun c => !isLineBreak c)
            if rest.isEmpty then [line]
            else line :: splitlinesF (a :: r).length (breakTail rest)) = _
      have hne : ((a :: r).dropWhile (fun c => !isLineBreak c)).isEmpty = false := by
        cases hx : ((a :: r).dropWhile (fun c => !isLineBreak c)).isEmpty with
        | false => rfl
        | true => exact absurd (List.isEmpty_iff.mp hx) h2
      simp only [hne]
      rw [if_neg (by simp)]
      congr 1
      apply splitlinesF_congr
      · have hd : ((a :: r).dropWhile (fun c => !isLineBreak c)).length ≤
            (a :: r).length := (List.dropWhile_sublist _).length_le
        have hb := breakTail_length_lt h2
        omega
      · omega

theorem splitlines_ind {P : List Char → Prop}
    (base : P [])
    (step : ∀ s, s ≠ [] → P (breakTail (s.dropWhile (fun c => !isLineBreak c))) → P s)
    (s : List Char) : P s := by
  have key : ∀ (n : Nat) (s : List Char), s.length ≤ n → P s := by
    intro n
    induction n with
    | zero =>
        intro s hs
        have : s = [] := by
          cases s with
          | nil => rfl
          | cons a r => simp at hs
        rw [this]; exact base
    | succ n ih =>
        intro s hs
        cases hsnil : s with
        | nil => exact base
        | cons a r =>
            rw [← hsnil]
            have hne : s ≠ [] := by rw [hsnil]; simp
            refine step s hne (ih _ ?_)
            by_cases hdw : s.dropWhile (fun c => !isLineBreak c) = []
            · rw [hdw, breakTail_nil]; simp
            · have h1 := breakTail_length_lt hdw
              have h2 : (s.dropWhile (fun c => !isLineBreak c)).length ≤ s.length :=
                (List.dropWhile_sublist _).length_le
              omega
  exact key s.length s (Nat.le_refl _)

theorem mem_splitlines_breakfree {s l : List Char} (hmem : l ∈ splitlines s) :
    ∀ c ∈ l, isLineBreak c = false := by
  induction s using splitlines_ind with
  | base => rw [splitlines_nil] at hmem; simp at hmem
  | step s hne ih =>
      by_cases hdw : s.dropWhile (fun c => !isLineBreak c) = []
      · rw [splitlines_eq_single hne hdw] at hmem
        have : l = s.takeWhile (fun c => !isLineBreak c) := by simpa using hmem
        subst this
        intro c hc
        have := List.mem_takeWhile_imp hc
        simpa using this
      · rw [splitlines_eq_cons hne hdw] at hmem
        rcases List.mem_cons.mp hmem with rfl | htail
        · intro c hc
          have := List.mem_takeWhile_imp hc
          simpa using this
        · exact ih htail

theorem mem_splitlines_within {s l : List Char} (hmem : l ∈ splitlines s) :
    l <:+: s := by
  induction s using splitlines_ind with
  | base => rw [splitlines_nil] at hmem; simp at hmem
  | step s hne ih =>
      by_cases hdw : s.dropWhile (fun c => !isLineBreak c) = []
      · rw [splitlines_eq_single hne hdw] at hmem
        have : l = s.takeWhile (fun c => !isLineBreak c) := by simpa using hmem
        subst this
        exact (takeWhilePre _ s).isInfix
      · rw [splitlines_eq_cons hne hdw] at hmem
        rcases List.mem_cons.mp hmem with rfl | htail
        · exact (takeWhilePre _ s).isInfix
        · exact (ih htail).trans
            (((breakTail_suffix _).trans (List.dropWhile_suffix _)).isInfix)

theorem splitlines_single {s : List Char} (h : s ≠ [])
    (hb : ∀ c ∈ s, isLineBreak c = false) : splitlines s = [s] := by
  have htake : s.takeWhile (fun c => !isLineBreak c) = s :=
    List.takeWhile_eq_self_iff.mpr (by intro x hx; simp [hb x hx])
  have hdrop : s.dropWhile (fun c => !isLineBreak c) = [] :=
    List.dropWhile_eq_nil_iff.mpr (by intro x hx; simp [hb x hx])
  rw [splitlines_eq_single h hdrop, htake]

theorem takeWhile_append_stop {p : Char → Bool} :
    ∀ (l : List Char) (a : Char) (m : List Char), (∀ c ∈ l, p c = true) →
      p a = false →
      (l ++ a :: m).takeWhile p = l ∧ (l ++ a :: m).dropWhile p = a :: m := by
  intro l
  induction l with
  | nil =>
      intro a m _ hpa
      constructor
      · simp [List.takeWhile_cons, hpa]
      · simp [List.dropWhile_cons, hpa]
  | cons b t ih =>
      intro a m hall hpa
      have hpb : p b = true := hall b (by simp)
      obtain ⟨ht, hd⟩ := ih a m (fun c hc => hall c (by simp [hc])) hpa
      constructor
      · simp only [List.cons_append, List.takeWhile_cons, hpb, if_pos]
        rw [ht]
      · simp only [List.cons_append, List.dropWhile_cons, hpb, if_pos]
        exact hd

theorem intercalate_nil_char : List.intercalate ['\n'] ([] : List (List Char)) = [] := rfl

theorem intercalate_single (l : List Char) : List.intercalate ['\n'] [l] = l := by
  simp [List.intercalate]

theorem intercalate_cons_ne {l : List Char} {L : List (List Char)} (h : L ≠ []) :
    List.intercalate ['\n'] (l :: L) = l ++ '\n' :: List.intercalate ['\n'] L := by
  cases L with
  | nil => exact absurd rfl h
  | cons b t =>
      simp only [List.intercalate, List.intersperse_cons₂, List.flatten_cons]
      rfl

theorem splitlines_intercalate :
    ∀ (ls : List (List Char)),
      (∀ l ∈ ls, l ≠ [] ∧ ∀ c ∈ l, isLineBreak c = false) →
      splitlines (List.intercalate ['\n'] ls) = ls := by
  intro ls
  induction ls with
  | nil => intro _; rw [intercalate_nil_char, splitlines_nil]
  | cons l L ih =>
      intro h
      obtain ⟨hl, hlb⟩ := h l (by simp)
      cases L with
      | nil => rw [intercalate_single]; exact splitlines_single hl hlb
      | cons l₂ L' =>
          rw [intercalate_cons_ne (by simp)]
          have hnb : isLineBreak '\n' = true := by decide
          have hpn : (fun c => !isLineBreak c) '\n' = false := by simp [hnb]
          obtain ⟨htake, hdrop⟩ := takeWhile_append_stop (p := fun c => !isLineBreak c)
            l '\n' (List.intercalate ['\n'] (l₂ :: L'))
            (fun c hc => by simp [hlb c hc]) hpn
          have hne : l ++ '\n' :: List.intercalate ['\n'] (l₂ :: L') ≠ [] := by
            exact List.append_ne_nil_of_right_ne_nil _ (by simp)
          rw [splitlines_eq_cons hne (by rw [hdrop]; simp), htake, hdrop]
          have hbt : breakTail ('\n' :: List.intercalate ['\n'] (l₂ :: L')) =
              List.intercalate ['\n'] (l₂ :: L') :=
            breakTail_cons_ne _ (by decide)
          rw [hbt, ih (fun x hx => h x (by simp [hx]))]

/-! ## Lemmas about `strip` -/

theorem strip_nil : strip [] = [] := rfl

theorem strip_pre_dropWhile (s : List Char) : strip s <+: s.dropWhile isSpace := by
  unfold strip
  have h : (s.dropWhile isSpace).reverse.dropWhile isSpace <:+
      (s.dropWhile isSpace).reverse := List.dropWhile_suffix isSpace
  have h2 := List.reverse_prefix.mpr h
  rw [List.reverse_reverse] at h2
  exact h2

theorem strip_within (s : List Char) : strip s <:+: s :=
  (strip_pre_dropWhile s).isInfix.trans (List.dropWhile_suffix isSpace).isInfix

theorem strip_subset {s : List Char} : ∀ c ∈ strip s, c ∈ s :=
  fun _ hc => (strip_within s).sublist.subset hc

theorem strip_eq_self_of {s : List Char}
    (h1 : ∀ a, s.head? = some a → isSpace a = false)
    (h2 : ∀ a, s.getLast? = some a → isSpace a = false) : strip s = s := by
  have hd : s.dropWhile isSpace = s := dropWhile_eq_self_of_head h1
  unfold strip
  rw [hd]
  have hr : s.reverse.dropWhile isSpace = s.reverse := by
    apply dropWhile_eq_self_of_head
    intro a ha
    rw [List.head?_reverse] at ha
    exact h2 a ha
  rw [hr, List.reverse_reverse]

theorem stripped_dropWhile_eq_self {l : List Char} (h : strip l = l) :
    l.dropWhile isSpace = l := by
  have hpre : strip l <+: l.dropWhile isSpace := strip_pre_dropWhile l
  rw [h] at hpre
  have h1 : l.length ≤ (l.dropWhile isSpace).length := hpre.sublist.length_le
  have h2 : (l.dropWhile isSpace).length ≤ l.length :=
    (List.dropWhile_sublist isSpace).length_le
  exact (List.dropWhile_suffix isSpace).eq_of_length (by omega)

theorem stripped_head_false {l : List Char} (h : strip l = l) {a : Char}
    (ha : l.head? = some a) : isSpace a = false :=
  dropWhile_eq_self_head_false (stripped_dropWhile_eq_self h) ha

theorem stripped_rev_dropWhile_eq_self {l : List Char} (h : strip l = l) :
    l.reverse.dropWhile isSpace = l.reverse := by
  have hd : l.dropWhile isSpace = l := stripped_dropWhile_eq_self h
  have hs : (l.reverse.dropWhile isSpace).reverse = l := by
    have h2 := h
    unfold strip at h2
    rw [hd] at h2
    exact h2
  have := congrArg List.reverse hs
  rw [List.reverse_reverse] at this
  exact this

theorem stripped_getLast_false {l : List Char} (h : strip l = l) {a : Char}
    (ha : l.getLast? = some a) : isSpace a = false := by
  have hr : l.reverse.dropWhile isSpace = l.reverse := stripped_rev_dropWhile_eq_self h
  apply dropWhile_eq_self_head_false hr
  rw [List.head?_reverse]
  exact ha

theorem suffix_getLast?_eq {v w : List Char} (h : v <:+ w) (hv : v ≠ []) :
    v.getLast? = w.getLast? := by
  obtain ⟨t, rfl⟩ := h
  rw [List.getLast?_append]
  rcases hx : v.getLast? with _ | x
  · rw [List.getLast?_eq_none_iff] at hx
    exact absurd hx hv
  · rfl

theorem strip_head_false {s : List Char} {a : Char}
    (ha : (strip s).head? = some a) : isSpace a = false := by
  have hv : (strip s).head? =
      ((s.dropWhile isSpace).reverse.dropWhile isSpace).getLast? := by
    unfold strip
    rw [List.head?_reverse]
  rw [hv] at ha
  have hne : (s.dropWhile isSpace).reverse.dropWhile isSpace ≠ [] := by
    intro hcon
    rw [hcon] at ha
    simp at ha
  have heq := suffix_getLast?_eq (List.dropWhile_suffix isSpace) hne
  rw [heq, List.getLast?_reverse] at ha
  exact dropWhile_head_false ha

theorem strip_getLast_false {s : List Char} {a : Char}
    (ha : (strip s).getLast? = some a) : isSpace a = false := by
  have hv : (strip s).getLast? =
      ((s.dropWhile isSpace).reverse.dropWhile isSpace).head? := by
    unfold strip
    rw [List.getLast?_reverse]
  rw [hv] at ha
  exact dropWhile_head_false ha

theorem strip_idem (s : List Char) : strip (strip s) = strip s :=
  strip_eq_self_of (fun _ ha => strip_head_false ha)
    (fun _ ha => strip_getLast_false ha)

/-! ## Shape of the cleaner's output -/

theorem map_strip_id {ls : List (List Char)} (h : ∀ l ∈ ls, strip l = l) :
    ls.map strip = ls := by
  induction ls with
  | nil => rfl
  | cons l t ih =>
      simp only [List.map_cons, h l (by simp), ih (fun x hx => h x (by simp [hx]))]

theorem intercalate_ne_nil {L : List (List Char)} (hL : L ≠ [])
    (h : ∀ l ∈ L, l ≠ []) : List.intercalate ['\n'] L ≠ [] := by
  cases L with
  | nil => exact absurd rfl hL
  | cons l t =>
      cases t with
      | nil => rw [intercalate_single]; exact h l (by simp)
      | cons l₂ t' =>
          rw [intercalate_cons_ne (by simp)]
          exact List.append_ne_nil_of_right_ne_nil _ (by simp)

theorem intercalate_head?_cons {l : List Char} (L : List (List Char)) (hl : l ≠ []) :
    (List.intercalate ['\n'] (l :: L)).head? = l.head? := by
  cases L with
  | nil => rw [intercalate_single]
  | cons l₂ t =>
      rw [intercalate_cons_ne (by simp)]
      cases l with
      | nil => exact absurd rfl hl
      | cons a r => rfl

theorem intercalate_getLast?_some :
    ∀ (L : List (List Char)), (∀ l ∈ L, l ≠ []) → ∀ {a : Char},
      (List.intercalate ['\n'] L).getLast? = some a → ∃ l ∈ L, l.getLast? = some a := by
  intro L
  induction L with
  | nil => intro _ a ha; rw [intercalate_nil_char] at ha; simp at ha
  | cons l t ih =>
      intro h a ha
      cases t with
      | nil =>
          rw [intercalate_single] at ha
          exact ⟨l, by simp, ha⟩
      | cons l₂ t' =>
          rw [intercalate_cons_ne (by simp), List.getLast?_append] at ha
          have hM : List.intercalate ['\n'] (l₂ :: t') ≠ [] :=
            intercalate_ne_nil (by simp) (fun x hx => h x (by simp [hx]))
          have hcons : ('\n' :: List.intercalate ['\n'] (l₂ :: t')).getLast? =
              (List.intercalate ['\n'] (l₂ :: t')).getLast? := by
            cases hM2 : List.intercalate ['\n'] (l₂ :: t') with
            | nil => exact absurd hM2 hM
            | cons m M₂ => rw [List.getLast?_cons_cons]
          rw [hcons] at ha
          rcases hx : (List.intercalate ['\n'] (l₂ :: t')).getLast? with _ | x
          · rw [List.getLast?_eq_none_iff] at hx
            exact absurd hx hM
          · rw [hx, Option.or_some] at ha
            have hxa : x = a := Option.some.inj ha
            subst hxa
            obtain ⟨l', hl', ha'⟩ := ih (fun z hz => h z (by simp [hz])) hx
            exact ⟨l', by simp [hl'], ha'⟩

theorem stripped_intercalate {L : List (List Char)}
    (h : ∀ l ∈ L, strip l = l ∧ l ≠ []) :
    strip (List.intercalate ['\n'] L) = List.intercalate ['\n'] L := by
  cases L with
  | nil => rw [intercalate_nil_char]; exact strip_nil
  | cons l t =>
      apply strip_eq_self_of
      · intro a ha
        rw [intercalate_head?_cons t (h l (by simp)).2] at ha
        exact stripped_head_false (h l (by simp)).1 ha
      · intro a ha
        obtain ⟨l', hl', ha'⟩ := intercalate_getLast?_some (l :: t)
          (fun x hx => (h x hx).2) ha
        exact stripped_getLast_false (h l' hl').1 ha'

theorem filterTranscript_mem {t l : List Char} (hmem : l ∈ filterTranscript t) :
    strip l = l ∧ l ≠ [] ∧ isTranscriptLine l = false ∧
      (∀ c ∈ l, isLineBreak c = false) ∧ l <:+: t := by
  unfold filterTranscript at hmem
  obtain ⟨hmap, hpred⟩ := List.mem_filter.mp hmem
  obtain ⟨l0, hl0, rfl⟩ := List.mem_map.mp hmap
  have hp := hpred
  simp only [Bool.and_eq_true, Bool.not_eq_true'] at hp
  obtain ⟨htrans, hempty⟩ := hp
  refine ⟨strip_idem l0, ?_, htrans, ?_, ?_⟩
  · intro hcon
    rw [hcon] at hempty
    simp at hempty
  · intro c hc
    exact mem_splitlines_breakfree hl0 c (strip_subset c hc)
  · exact (strip_within l0).trans (mem_splitlines_within hl0)

theorem firstNonEmptyLine_nil : firstNonEmptyLine [] = [] := rfl

theorem joinFiltered_cases (t : List Char) :
    (filterTranscript t = [] ∧ joinFiltered t = []) ∨
    ∃ c cs, filterTranscript t = c :: cs ∧
      joinFiltered t = List.intercalate ['\n'] (c :: cs) ∧
      firstNonEmptyLine (joinFiltered t) = c ∧ c ∈ filterTranscript t := by
  cases hft : filterTranscript t with
  | nil =>
      left
      refine ⟨rfl, ?_⟩
      unfold joinFiltered
      rw [hft, intercalate_nil_char, strip_nil]
  | cons c cs =>
      right
      have hmem : ∀ l ∈ filterTranscript t, strip l = l ∧ l ≠ [] ∧
          isTranscriptLine l = false ∧ (∀ ch ∈ l, isLineBreak ch = false) ∧
          l <:+: t := fun l hl => filterTranscript_mem hl
      rw [hft] at hmem
      have hJ : joinFiltered t = List.intercalate ['\n'] (c :: cs) := by
        unfold joinFiltered
        rw [hft]
        exact stripped_intercalate (fun l hl => ⟨(hmem l hl).1, (hmem l hl).2.1⟩)
      refine ⟨c, cs, rfl, hJ, ?_, by simp⟩
      rw [hJ]
      unfold firstNonEmptyLine
      have hsl : splitlines (List.intercalate ['\n'] (c :: cs)) = c :: cs :=
        splitlines_intercalate (c :: cs)
          (fun l hl => ⟨(hmem l hl).2.1, (hmem l hl).2.2.2.1⟩)
      rw [hsl, map_strip_id (fun l hl => (hmem l hl).1)]
      have hfind : List.find? (fun l => !l.isEmpty) (c :: cs) = some c := by
        have hc : c ≠ [] := (hmem c (by simp)).2.1
        have hcb : (!c.isEmpty) = true := by simp [List.isEmpty_iff, hc]
        simp [List.find?_cons, hcb]
      rw [hfind]

/-- Shape invariant of `clean_completion`'s output: empty, or a single
stripped non-empty line that survives the transcript filter, contains no
line break and no sentinel occurrence. -/
def CleanShape (y : List Char) : Prop :=
  y = [] ∨ (strip y = y ∧ y ≠ [] ∧ isTranscriptLine y = false ∧
    (∀ c ∈ y, isLineBreak c = false) ∧ containsSub sentinel y = false)

theorem afterFirstCI_within (pat s : List Char) : afterFirstCI pat s <:+: s := by
  unfold afterFirstCI
  cases firstOccCI pat s with
  | none => exact List.infix_rfl
  | some i => exact (List.drop_suffix _ _).isInfix

theorem echoSuppress_no_sentinel (t : List Char) :
    containsSub sentinel (echoSuppress t) = false := by
  unfold echoSuppress
  cases h : containsSub sentinel t with
  | false =>
      rw [if_neg (by simp)]
      exact h
  | true =>
      rw [if_pos rfl]
      exact infix_containsSub_false (afterLast_no_sub (by decide)) (strip_within _)

theorem finalExtract_pres_no_sub {pat t : List Char}
    (h : containsSub pat t = false) :
    containsSub pat (finalExtract t) = false := by
  unfold finalExtract
  cases hg : containsCI finalMarker t with
  | false =>
      rw [if_neg (by simp)]
      exact h
  | true =>
      rw [if_pos rfl]
      exact infix_containsSub_false h
        ((strip_within _).trans (afterFirstCI_within _ _))

theorem clean_shape (x : List Char) : CleanShape (clean_completion x) := by
  by_cases hx : x.isEmpty
  · unfold clean_completion
    rw [if_pos hx]
    left
    rfl
  · unfold clean_completion
    rw [if_neg hx]
    show CleanShape
      (if (firstNonEmptyLine (joinFiltered (finalExtract (echoSuppress (strip x))))).isEmpty
       then joinFiltered (finalExtract (echoSuppress (strip x)))
       else firstNonEmptyLine (joinFiltered (finalExtract (echoSuppress (strip x)))))
    have hsent : containsSub sentinel (finalExtract (echoSuppress (strip x))) = false :=
      finalExtract_pres_no_sub (echoSuppress_no_sentinel (strip x))
    rcases joinFiltered_cases (finalExtract (echoSuppress (strip x))) with
      ⟨hft, hjf⟩ | ⟨c, cs, hft, hjf, hfnel, hcmem⟩
    · rw [hjf, firstNonEmptyLine_nil]
      left
      rfl
    · rw [hfnel]
      obtain ⟨hstrip, hne, htrans, hbreak, hinf⟩ := filterTranscript_mem hcmem
      rw [if_neg (by simp [List.isEmpty_iff, hne])]
      right
      exact ⟨hstrip, hne, htrans, hbreak, infix_containsSub_false hsent hinf⟩

/-! ## Injectivity of the decimal id representation -/

theorem natReprF_congr :
    ∀ (f₁ : Nat), ∀ (n f₂ : Nat), n < f₁ → n < f₂ → natReprF f₁ n = natReprF f₂ n := by
  intro f₁
  induction f₁ with
  | zero => intro n f₂ h1; omega
  | succ f₁' ih =>
      intro n f₂ h1 h2
      cases f₂ with
      | zero => omega
      | succ f₂' =>
          show (if n < 10 then [digitChar n]
                else natReprF f₁' (n / 10) ++ [digitChar (n % 10)]) =
               (if n < 10 then [digitChar n]
                else natReprF f₂' (n / 10) ++ [digitChar (n % 10)])
          by_cases hn : n < 10
          · rw [if_pos hn, if_pos hn]
          · rw [if_neg hn, if_neg hn]
            have hd : n / 10 < n := Nat.div_lt_self (by omega) (by omega)
            rw [ih (n / 10) f₂' (by omega) (by omega)]

theorem natRepr_eq (n : Nat) :
    natRepr n = if n < 10 then [digitChar n]
                else natRepr (n / 10) ++ [digitChar (n % 10)] := by
  show (if n < 10 then [digitChar n]
        else natReprF n (n / 10) ++ [digitChar (n % 10)]) = _
  by_cases hn : n < 10
  · rw [if_pos hn, if_pos hn]
  · rw [if_neg hn, if_neg hn]
    have hd : n / 10 < n := Nat.div_lt_self (by omega) (by omega)
    unfold natRepr
    rw [natReprF_congr n (n / 10) (n / 10 + 1) (by omega) (by omega)]

theorem digitChar_inj :
    ∀ a, a < 10 → ∀ b, b < 10 → digitChar a = digitChar b → a = b := by decide

theorem natRepr_ne_nil (n : Nat) : natRepr n ≠ [] := by
  rw [natRepr_eq]
  by_cases hn : n < 10
  · rw [if_pos hn]; simp
  · rw [if_neg hn]; simp

theorem natRepr_inj : ∀ (a b : Nat), natRepr a = natRepr b → a = b := by
  intro a
  induction a using Nat.strong_induction_on with
  | _ a ih =>
      intro b h
      rw [natRepr_eq a, natRepr_eq b] at h
      by_cases ha : a < 10 <;> by_cases hb : b < 10
      · rw [if_pos ha, if_pos hb] at h
        exact digitChar_inj a ha b hb (List.cons.inj h).1
      · rw [if_pos ha, if_neg hb] at h
        have hlen := congrArg List.length h
        have hne := natRepr_ne_nil (b / 10)
        simp [List.length_append] at hlen
        cases hx : natRepr (b / 10) with
        | nil => exact absurd hx hne
        | cons z zs => rw [hx] at hlen; simp at hlen
      · rw [if_neg ha, if_pos hb] at h
        have hlen := congrArg List.length h
        have hne := natRepr_ne_nil (a / 10)
        simp [List.length_append] at hlen
        cases hx : natRepr (a / 10) with
        | nil => exact absurd hx hne
        | cons z zs => rw [hx] at hlen; simp at hlen
      · rw [if_neg ha, if_neg hb] at h
        obtain ⟨h1, h2⟩ := List.append_inj' h (by simp)
        have hda : a / 10 < a := Nat.div_lt_self (by omega) (by omega)
        have hq : a / 10 = b / 10 := ih (a / 10) hda (b / 10) h1
        have hr : a % 10 = b % 10 := by
          have hma : a % 10 < 10 := Nat.mod_lt a (by omega)
          have hmb : b % 10 < 10 := Nat.mod_lt b (by omega)
          exact digitChar_inj _ hma _ hmb (List.cons.inj h2).1
        have hdm1 := Nat.div_add_mod a 10
        have hdm2 := Nat.div_add_mod b 10
        omega

theorem idString_inj {m₁ m₂ : Nat} (h : m₁ ≠ m₂) : idString m₁ ≠ idString m₂ := by
  intro hcon
  unfold idString at hcon
  have := List.append_cancel_left hcon
  exact h (natRepr_inj _ _ this)

theorem clean_fix {y : List Char} (hS : CleanShape y)
    (hfm : containsCI finalMarker y = false) : clean_completion y = y := by
  rcases hS with rfl | ⟨hstrip, hne, htrans, hbreak, hsent⟩
  · rfl
  · have hyE : y.isEmpty = false := by simp [List.isEmpty_iff, hne]
    unfold clean_completion
    rw [if_neg (by rw [hyE]; simp)]
    show (if (firstNonEmptyLine (joinFiltered (finalExtract (echoSuppress (strip y))))).isEmpty
          then joinFiltered (finalExtract (echoSuppress (strip y)))
          else firstNonEmptyLine (joinFiltered (finalExtract (echoSuppress (strip y))))) = y
    rw [hstrip]
    have h2 : echoSuppress y = y := by
      unfold echoSuppress
      rw [if_neg (by rw [hsent]; simp)]
    have h3 : finalExtract y = y := by
      unfold finalExtract
      rw [if_neg (by rw [hfm]; simp)]
    rw [h2, h3]
    have hsl : splitlines y = [y] := splitlines_single hne hbreak
    have hft : filterTranscript y = [y] := by
      unfold filterTranscript
      rw [hsl]
      simp only [List.map_cons, List.map_nil, hstrip]
      rw [List.filter_cons_of_pos (by simp [htrans, hyE])]
      rfl
    have hjf : joinFiltered y = y := by
      unfold joinFiltered
      rw [hft, intercalate_single, hstrip]
    have hfnel : firstNonEmptyLine y = y := by
      unfold firstNonEmptyLine
      rw [hsl]
      simp only [List.map_cons, List.map_nil, hstrip]
      rw [List.find?_cons_of_pos _ (by simp [List.isEmpty_iff, hne])]
    rw [hjf, hfnel, if_neg (by rw [hyE]; simp)]

/-! ## Concrete fixtures used by counterexamples and witnesses -/

/-- Configuration with the source defaults. -/
def cfg0 : AdapterConfig := ⟨"http://172.17.0.2:8000".data, "vllm_model".data⟩

/-- A minimal valid request (one user message, all defaults). -/
def req0 : ChatCompletionsRequest := { messages := [⟨"user".data, "hi".data⟩] }

/-- A request asking for streaming. -/
def reqStream : ChatCompletionsRequest :=
  { messages := [⟨"user".data, "hi".data⟩], stream := some true }

/-- One concrete set of clock observations. -/
def obs0 : TimeObs := ⟨3, 7, 1700000000001, 1700000000⟩

/-! ## Claim theorems -/

/-- C1, counterexample: `clean_completion` is NOT idempotent.  On the input
`"assistantfinal assistantfinal b"` the first pass strips only the first
final marker, leaving `"assistantfinal b"`, and a second pass strips again,
leaving `"b"`. -/
theorem C1_counterexample_clean_not_idempotent :
    clean_completion "assistantfinal assistantfinal b".data =
      "assistantfinal b".data ∧
    clean_completion (clean_completion "assistantfinal assistantfinal b".data) =
      "b".data ∧
    clean_completion (clean_completion "assistantfinal assistantfinal b".data) ≠
      clean_completion "assistantfinal assistantfinal b".data := by
  refine ⟨by decide, by decide, by decide⟩

/-- C1, amended: re-applying the cleaner to its own output changes nothing
whenever that output contains no residual case-insensitive occurrence of the
final marker `assistantfinal` (the only state step 3 can still fire on; the
output always contains no sentinel and no role-prefixed or multi-line
content). -/
theorem C1_clean_idempotent_without_marker (x : List Char)
    (h : containsCI finalMarker (clean_completion x) = false) :
    clean_completion (clean_completion x) = clean_completion x :=
  clean_fix (clean_shape x) h

/-- C1, witness: the amended idempotence theorem applied to the spec's own
echo-suppression example. -/
theorem C1_witness :
    containsCI finalMarker
      (clean_completion "...ASSISTANT: first\nASSISTANT: second".data) = false ∧
    clean_completion
        (clean_completion "...ASSISTANT: first\nASSISTANT: second".data) =
      clean_completion "...ASSISTANT: first\nASSISTANT: second".data :=
  ⟨by decide, C1_clean_idempotent_without_marker _ (by decide)⟩

/-- C2, counterexample: the filtering regex is case-sensitive, so the
all-lowercase line `"user: hi"` — which starts with a role label matched
case-insensitively — is NOT dropped: it is returned as the cleaner's output
verbatim. -/
theorem C2_counterexample_lowercase_role_kept :
    clean_completion "user: hi\nok".data = "user: hi".data ∧
    ciRoleLine "user: hi".data = true ∧
    isTranscriptLine "user: hi".data = false := by
  refine ⟨by decide, by decide, by decide⟩

/-- C2, amended: the filtering step drops exactly the lines matching the six
literal capitalisations `USER/User/SYSTEM/System/ASSISTANT/Assistant`
(optional whitespace before the colon); no surviving line matches that
pattern.  Labels in any other capitalisation are kept. -/
theorem C2_filter_drops_exact_capitalisations (t : List Char) :
    ((filterTranscript t).all fun l => !isTranscriptLine l) = true := by
  rw [List.all_eq_true]
  intro l hl
  have h := (filterTranscript_mem hl).2.2.1
  simp [h]

/-- C3, counterexample: when `requests.post` raises (timeout / connection
failure) the handler does not produce the 502 `BackendError`
`HTTPException` — the exception simply propagates out of the handler
uncaught (FastAPI then yields a generic 500, not a 502). -/
theorem C3_counterexample_transport_not_backend_error :
    (chat_completions cfg0 req0 (.error "connection timed out".data) obs0).1 =
      .error (.transportException "connection timed out".data) ∧
    raisedBackendError
      (chat_completions cfg0 req0 (.error "connection timed out".data) obs0).1 =
      false :=
  ⟨rfl, rfl⟩

/-- Reduction of the handler on a returned backend response (any status),
with the stream check already passed. -/
theorem chat_completions_ok_eq (cfg : AdapterConfig) (req : ChatCompletionsRequest)
    (obs : TimeObs) (st : Int) (bb : List Char) (tt : Option (List Char))
    (hstream : ¬req.stream = some true) :
    chat_completions cfg req (.ok ⟨st, bb, tt⟩) obs =
      if st ≠ 200 then
        (.error (.backendError 502 st bb),
         [⟨messages_to_prompt req.messages, buildParams req⟩])
      else
        (.ok { id := idString obs.idMs
               object := "chat.completion".data
               created := obs.created
               model := match req.model with
                        | some m => if m.isEmpty then cfg.tritonModel else m
                        | none => cfg.tritonModel
               choices := [⟨0, ⟨"assistant".data, clean_completion (tt.getD [])⟩,
                           "stop".data⟩]
               usage := [("prompt_tokens".data, UsageVal.null),
                         ("completion_tokens".data, UsageVal.null),
                         ("total_tokens".data, UsageVal.null),
                         ("triton_latency_s".data, UsageVal.num (obs.t1 - obs.t0))] },
         [⟨messages_to_prompt req.messages, buildParams req⟩]) := by
  unfold chat_completions
  rw [if_neg hstream]

/-- C3, amended: only a non-success HTTP status from the backend is mapped to
the 502 `BackendError` carrying the backend status and body; a transport
failure (timeout, connection error) propagates out of the handler as the
uncaught underlying exception and is never converted to the 502 error. -/
theorem C3_transport_uncaught_status_mapped
    (cfg : AdapterConfig) (req : ChatCompletionsRequest) (obs : TimeObs)
    (e bb : List Char) (st : Int) (tt : Option (List Char))
    (hstream : ¬req.stream = some true) (hst : st ≠ 200) :
    (chat_completions cfg req (.error e) obs).1 =
      .error (.transportException e) ∧
    raisedBackendError (chat_completions cfg req (.error e) obs).1 = false ∧
    (chat_completions cfg req (.ok ⟨st, bb, tt⟩) obs).1 =
      .error (.backendError 502 st bb) := by
  refine ⟨?_, ?_, ?_⟩
  · unfold chat_completions
    rw [if_neg hstream]
  · unfold chat_completions
    rw [if_neg hstream]
    rfl
  · rw [chat_completions_ok_eq cfg req obs st bb tt hstream, if_pos hst]

/-- C3, witness: the amended theorem at a concrete request, transport error
and backend 500. -/
theorem C3_witness :
    (¬req0.stream = some true) ∧ ((500 : Int) ≠ 200) ∧
    ((chat_completions cfg0 req0 (.error "boom".data) obs0).1 =
        .error (.transportException "boom".data) ∧
      raisedBackendError
        (chat_completions cfg0 req0 (.error "boom".data) obs0).1 = false ∧
      (chat_completions cfg0 req0 (.ok ⟨500, "oops".data, none⟩) obs0).1 =
        .error (.backendError 502 500 "oops".data)) :=
  ⟨by decide, by decide,
   C3_transport_uncaught_status_mapped cfg0 req0 obs0 "boom".data "oops".data
     500 none (by decide) (by decide)⟩

/-- C4, counterexample: two distinct successful responses (their assistant
contents differ) produced in the same observed millisecond carry the SAME
id — the id is reused, refuting uniqueness. -/
theorem C4_counterexample_same_millisecond_id_collision :
    okContent (chat_completions cfg0 req0
        (.ok ⟨200, [], some "alpha".data⟩) obs0).1 ≠
      okContent (chat_completions cfg0 req0
        (.ok ⟨200, [], some "beta".data⟩) obs0).1 ∧
    okId (chat_completions cfg0 req0 (.ok ⟨200, [], some "alpha".data⟩) obs0).1 =
      okId (chat_completions cfg0 req0 (.ok ⟨200, [], some "beta".data⟩) obs0).1 ∧
    (okId (chat_completions cfg0 req0
        (.ok ⟨200, [], some "alpha".data⟩) obs0).1).isSome = true := by
  refine ⟨by decide, rfl, rfl⟩

/-- C4, amended: the id is exactly `chatcmpl-adapter-` followed by the
decimal millisecond clock value observed while building the response, so ids
of two responses differ if and only if those millisecond values differ:
distinct milliseconds give distinct ids, while two responses built in the
same millisecond share one id. -/
theorem C4_id_timestamp_determined :
    (∀ (cfg : AdapterConfig) (req : ChatCompletionsRequest) (obs : TimeObs)
       (bb : List Char) (tt : Option (List Char)), ¬req.stream = some true →
       okId (chat_completions cfg req (.ok ⟨200, bb, tt⟩) obs).1 =
         some (idString obs.idMs)) ∧
    ∀ m₁ m₂ : Nat, m₁ ≠ m₂ → idString m₁ ≠ idString m₂ := by
  constructor
  · intro cfg req obs bb tt hstream
    unfold chat_completions
    rw [if_neg hstream]
    rfl
  · exact fun m₁ m₂ h => idString_inj h

/-- C4, witness: both halves of the amended theorem at concrete inputs. -/
theorem C4_witness :
    okId (chat_completions cfg0 req0
        (.ok ⟨200, [], some "alpha".data⟩) obs0).1 =
      some (idString obs0.idMs) ∧
    idString 1700000000001 ≠ idString 1700000000002 :=
  ⟨C4_id_timestamp_determined.1 cfg0 req0 obs0 [] (some "alpha".data) (by decide),
   C4_id_timestamp_determined.2 _ _ (by decide)⟩

/-- C5, counterexample: the usage dictionary of a successful response has no
key `latency_seconds`; the elapsed time is stored under `triton_latency_s`
instead. -/
theorem C5_counterexample_usage_key_name :
    (okUsage (chat_completions cfg0 req0
        (.ok ⟨200, [], some "ok".data⟩) obs0).1).map
      (usageLookup "latency_seconds".data) = some none ∧
    (okUsage (chat_completions cfg0 req0
        (.ok ⟨200, [], some "ok".data⟩) obs0).1).map
      (usageLookup "triton_latency_s".data) =
      some (some (.num (obs0.t1 - obs0.t0))) :=
  ⟨rfl, rfl⟩

/-- C5, amended: every successful response's usage object is exactly
`{prompt_tokens: null, completion_tokens: null, total_tokens: null,
triton_latency_s: float}` (note the key name), where `triton_latency_s` is
the elapsed wall-clock time of the backend call (`time.time()` after minus
before). -/
theorem C5_usage_shape
    (cfg : AdapterConfig) (req : ChatCompletionsRequest) (obs : TimeObs)
    (bb : List Char) (tt : Option (List Char))
    (hstream : ¬req.stream = some true) :
    okUsage (chat_completions cfg req (.ok ⟨200, bb, tt⟩) obs).1 =
      some [("prompt_tokens".data, UsageVal.null),
            ("completion_tokens".data, UsageVal.null),
            ("total_tokens".data, UsageVal.null),
            ("triton_latency_s".data, UsageVal.num (obs.t1 - obs.t0))] := by
  unfold chat_completions
  rw [if_neg hstream]
  rfl

/-- C5, witness: the amended usage-shape theorem at a concrete request. -/
theorem C5_witness :
    okUsage (chat_completions cfg0 req0
        (.ok ⟨200, [], some "ok".data⟩) obs0).1 =
      some [("prompt_tokens".data, UsageVal.null),
            ("completion_tokens".data, UsageVal.null),
            ("total_tokens".data, UsageVal.null),
            ("triton_latency_s".data, UsageVal.num (obs0.t1 - obs0.t0))] :=
  C5_usage_shape cfg0 req0 obs0 [] (some "ok".data) (by decide)

/-- C6, counterexample: with "role-label-prefixed" read as the spec defines
it (case-insensitive), the invariant is false of the program — the output
for `"assistant: yo"` is the line `"assistant: yo"` itself, which starts
with a role label case-insensitively but is not matched by the
case-sensitive filter. -/
theorem C6_counterexample_lowercase_role_in_output :
    clean_completion "assistant: yo".data = "assistant: yo".data ∧
    ciRoleLine "assistant: yo".data = true ∧
    isTranscriptLine "assistant: yo".data = false := by
  refine ⟨by decide, by decide, by decide⟩

/-- C6, amended: for every input, the cleaner's output contains no occurrence
of the sentinel `ASSISTANT:`, and none of its lines matches the filter's
case-sensitive transcript-line pattern (a role label in one of the six
capitalisations `USER/User/SYSTEM/System/ASSISTANT/Assistant`, optional
whitespace, colon) — in particular no line starts with the literal labels
`USER:`, `SYSTEM:` or `ASSISTANT:`.  A line carrying a role label in any
other capitalisation (e.g. all-lowercase `user:`) can remain. -/
theorem C6_clean_no_sentinel_no_role_lines (x : List Char) :
    containsSub sentinel (clean_completion x) = false ∧
    ((splitlines (clean_completion x)).all fun l => !isTranscriptLine l) = true := by
  rcases clean_shape x with hnil | ⟨hstrip, hne, htrans, hbreak, hsent⟩
  · rw [hnil]
    exact ⟨rfl, rfl⟩
  · refine ⟨hsent, ?_⟩
    rw [splitlines_single hne hbreak]
    simp [htrans]

/-- C7, counterexample: a non-empty stop list whose first element is the
empty string does NOT put that first element in the payload — the truthiness
check `if stop_val:` rejects the empty string and the `stop` key is omitted
entirely. -/
theorem C7_counterexample_stop_list_empty_first :
    (buildParams { messages := [⟨"user".data, "hi".data⟩],
                   stop := some (Sum.inr [[]]) }).stop = none ∧
    (none : Option (List Char)) ≠ some [] := by
  refine ⟨rfl, by decide⟩

/-- C7, amended: stop normalisation — a list contributes its first element
only when that element is non-empty; a non-empty string contributes itself;
in every other case (absent, empty string, empty list, or list whose first
element is empty) the `stop` key is omitted. -/
theorem C7_stop_normalisation (req : ChatCompletionsRequest) :
    (buildParams req).stop = stopSpec req.stop := by
  rcases req with ⟨model, msgs, temp, maxtok, stream, stop⟩
  rcases stop with _ | s | l
  · rfl
  · rfl
  · rcases l with _ | ⟨a, rest⟩
    · rfl
    · simp [buildParams, stopVal, stopSpec]

/-- C8: a request with `stream = true` is rejected with the 400
`UnsupportedFeature`-style `HTTPException` and the list of payloads posted
to the backend is empty — no outbound call is ever issued. -/
theorem C8_stream_rejected_before_backend (cfg : AdapterConfig)
    (req : ChatCompletionsRequest) (bres : Except (List Char) BackendResponse)
    (obs : TimeObs) (h : req.stream = some true) :
    chat_completions cfg req bres obs =
      (.error (.unsupportedStream 400
        "stream=true not supported in this minimal adapter yet".data), []) := by
  unfold chat_completions
  rw [if_pos h]

/-- C8, witness: the stream-rejection theorem at a concrete request. -/
theorem C8_witness :
    reqStream.stream = some true ∧
    chat_completions cfg0 reqStream (.error []) obs0 =
      (.error (.unsupportedStream 400
        "stream=true not supported in this minimal adapter yet".data), []) :=
  ⟨rfl, C8_stream_rejected_before_backend cfg0 reqStream (.error []) obs0 rfl⟩

/-- C9: the built prompt is one line `<ROLE-UPPERCASE>: <content>` per turn
(role matched case-insensitively, defaulting to `user`), followed by a final
line that is exactly the sentinel `ASSISTANT:`, joined by single newlines
with no trailing newline; in particular the spec's concrete example holds. -/
theorem C9_prompt_construction :
    (∀ msgs : List ChatMessage, messages_to_prompt msgs = promptSpec msgs) ∧
    messages_to_prompt
        [⟨"user".data, "Hi".data⟩, ⟨"assistant".data, "Hello".data⟩] =
      "USER: Hi\nASSISTANT: Hello\nASSISTANT:".data := by
  constructor
  · intro msgs
    induction msgs with
    | nil =>
        show List.intercalate ['\n'] ([] ++ ["ASSISTANT:".data]) = _
        rw [List.nil_append, intercalate_single]
        rfl
    | cons m rest ih =>
        show List.intercalate ['\n']
          (roleLine m :: (rest.map roleLine ++ ["ASSISTANT:".data])) = _
        rw [intercalate_cons_ne (List.append_ne_nil_of_right_ne_nil _ (by simp))]
        show roleLine m ++ '\n' :: messages_to_prompt rest = _
        rw [ih]
        rfl
  · decide

/-- C10: a request that carries `temperature` or `max_tokens` explicitly as
`null` gets the defaults `0.0` and `256` in the backend payload, exactly as
if the fields were absent (absent fields validate to the same defaults);
`null` itself is never forwarded — the payload's fields are total. -/
theorem C10_null_params_defaulted (req : ChatCompletionsRequest) :
    (buildParams { req with temperature := none }).temperature = 0 ∧
    (buildParams { req with max_tokens := none }).max_tokens = 256 ∧
    buildParams { req with temperature := none, max_tokens := none } =
      buildParams { req with temperature := some 0, max_tokens := some 256 } :=
  ⟨rfl, rfl, rfl⟩

end GuardrailsAdapter
